import Mathlib

/-!
Verification development for the `telegram-joiner` repository.

The JavaScript source is shallowly embedded below. Pure computations
(base64 deep-link encoding, link extraction and de-duplication, wait-time
formatting) become Lean functions; the stateful request queue becomes an
explicit state-transition system; the per-target interaction engine
(`BotInteractionHandler.interactWithBot`) becomes a function over an
explicit environment that records the result of each external call
(resolution, send, response wait, join attempts, confirm clicks, inbound
media events), so that every control path of the source is represented.
Machine integers are modelled as `Nat`/`Int`; fallible calls as
`Option`/`Except`.
-/

namespace TgJoiner

/-! ## Base64 deep-link encoding (`TelegramBot.encodeLinksToParameter` /
`TelegramBot.decodeStartParameter`)

`Buffer.from(jsonStr).toString('base64')` is standard base64 with padding;
the source then substitutes `+ → -`, `/ → _` and strips `=`.  Decoding
restores the substitutions, re-pads to a multiple of 4 and decodes.
Bytes are `Nat` values `< 256`. -/

/-- One standard base64 digit (`A–Z`, `a–z`, `0–9`, `+`, `/`). -/
def b64Char (v : Nat) : Char :=
  if v < 26 then Char.ofNat (65 + v)
  else if v < 52 then Char.ofNat (97 + (v - 26))
  else if v < 62 then Char.ofNat (48 + (v - 52))
  else if v = 62 then '+'
  else '/'

/-- Value of a base64 digit, as Node's decoder reads it. -/
def b64Value (c : Char) : Nat :=
  if 'A' ≤ c ∧ c ≤ 'Z' then c.toNat - 65
  else if 'a' ≤ c ∧ c ≤ 'z' then c.toNat - 97 + 26
  else if '0' ≤ c ∧ c ≤ '9' then c.toNat - 48 + 52
  else if c = '+' then 62
  else if c = '/' then 63
  else 0

/-- The plus-to-dash and slash-to-underscore substitutions from
`encodeLinksToParameter`. -/
def urlSafe (c : Char) : Char :=
  if c = '+' then '-' else if c = '/' then '_' else c

/-- The dash-to-plus and underscore-to-slash substitutions from
`decodeStartParameter`. -/
def urlRestore (c : Char) : Char :=
  if c = '-' then '+' else if c = '_' then '/' else c

/-- Standard padded base64 of a byte list (`Buffer.toString('base64')`). -/
def b64EncodePadded : List Nat → List Char
  | [] => []
  | [a] => [b64Char (a / 4), b64Char (a % 4 * 16), '=', '=']
  | [a, b] => [b64Char (a / 4), b64Char (a % 4 * 16 + b / 16), b64Char (b % 16 * 4), '=']
  | a :: b :: c :: rest =>
      b64Char (a / 4) :: b64Char (a % 4 * 16 + b / 16) ::
      b64Char (b % 16 * 4 + c / 64) :: b64Char (c % 64) :: b64EncodePadded rest

/-- Base64 decoding of a padded char list (`Buffer.from(str, 'base64')`),
on canonical inputs. -/
def b64Decode : List Char → List Nat
  | c1 :: c2 :: c3 :: c4 :: rest =>
      if c3 = '=' then [b64Value c1 * 4 + b64Value c2 / 16]
      else if c4 = '=' then
        [b64Value c1 * 4 + b64Value c2 / 16, b64Value c2 % 16 * 16 + b64Value c3 / 4]
      else
        (b64Value c1 * 4 + b64Value c2 / 16) ::
        (b64Value c2 % 16 * 16 + b64Value c3 / 4) ::
        (b64Value c3 % 4 * 64 + b64Value c4) :: b64Decode rest
  | _ => []

/-- Stripping every padding character, as the global equals-sign replace does. -/
def stripEq (l : List Char) : List Char := l.filter (· ≠ '=')

/-- `while (base64.length % 4) base64 += '='`: restore padding. -/
def padB64 (l : List Char) : List Char :=
  l ++ List.replicate ((4 - l.length % 4) % 4) '='

/-- URL-safe unpadded base64 of a byte list, as produced by
`encodeLinksToParameter`. -/
def encodeParamChars (bytes : List Nat) : List Char :=
  stripEq ((b64EncodePadded bytes).map urlSafe)

/-- Byte list recovered from a parameter, as in `decodeStartParameter`. -/
def decodeParamChars (l : List Char) : List Nat :=
  b64Decode (padB64 (l.map urlRestore))

/-! ## Bot links and the compact JSON descriptor

`LinkParser.parseBotLink` produces `{botUsername, startParameter, originalUrl}`
records.  `encodeLinksToParameter` serializes the compact form
`[{b, s}, …]` with `JSON.stringify`; on the character classes the link
regex admits (`botUsername` over letters, digits and underscore;
`startParameter` additionally dash) no JSON escaping occurs, so
`JSON.stringify` is literal concatenation, and `JSON.parse` on the
produced sublanguage is the recursive-descent parser below.  UTF-8 of
these ASCII payloads is the identity on code points. -/

structure BotLink where
  botUsername : String
  startParameter : String
  originalUrl : String
  deriving DecidableEq, Repr

/-- Character class of the regex group for `botUsername` (letters, digits,
underscore), by code point. -/
def isUnameChar (c : Char) : Bool :=
  (97 ≤ c.toNat && c.toNat ≤ 122) || (65 ≤ c.toNat && c.toNat ≤ 90) ||
  (48 ≤ c.toNat && c.toNat ≤ 57) || c = '_'

/-- Character class of the regex group for `startParameter` (additionally
dash). -/
def isTokenChar (c : Char) : Bool :=
  isUnameChar c || c = '-'

/-- A link whose fields lie in the character classes the extraction regex
admits. -/
def ValidLink (l : BotLink) : Prop :=
  l.botUsername.data.all isUnameChar = true ∧ l.startParameter.data.all isTokenChar = true

instance (l : BotLink) : Decidable (ValidLink l) := by unfold ValidLink; infer_instance

/-- `JSON.stringify({b: link.botUsername, s: link.startParameter})` on
escape-free fields. -/
def jsonOfLink (l : BotLink) : List Char :=
  '{' :: '"' :: 'b' :: '"' :: ':' :: '"' ::
  (l.botUsername.data ++ '"' :: ',' :: '"' :: 's' :: '"' :: ':' :: '"' ::
   (l.startParameter.data ++ ['"', '}']))

/-- Comma-separated object list inside the JSON array. -/
def jsonItems : List BotLink → List Char
  | [] => []
  | [l] => jsonOfLink l
  | l :: l2 :: rest => jsonOfLink l ++ ',' :: jsonItems (l2 :: rest)

/-- `JSON.stringify(compactLinks)`. -/
def jsonOfLinks (ls : List BotLink) : List Char :=
  '[' :: (jsonItems ls ++ [']'])

/-- `Buffer.from(jsonStr)` for an ASCII payload: one byte per code point. -/
def utf8Bytes (cs : List Char) : List Nat := cs.map Char.toNat

/-- `buffer.toString('utf8')` for an ASCII payload. -/
def bytesToChars (bs : List Nat) : List Char := bs.map Char.ofNat

/-- String content up to the closing quote, for quote-free content
(`JSON.parse` on the printer's sublanguage). -/
def parseStringContent (cs : List Char) : Option (List Char × List Char) :=
  match cs.dropWhile (· ≠ '"') with
  | '"' :: rest => some (cs.takeWhile (· ≠ '"'), rest)
  | _ => none

/-- One compact link object of the shape the printer emits. -/
def parseLinkObj (cs : List Char) : Option ((List Char × List Char) × List Char) :=
  match cs with
  | '{' :: '"' :: 'b' :: '"' :: ':' :: '"' :: rest =>
    match parseStringContent rest with
    | some (b, rest2) =>
      match rest2 with
      | ',' :: '"' :: 's' :: '"' :: ':' :: '"' :: rest3 =>
        match parseStringContent rest3 with
        | some (s, rest4) =>
          match rest4 with
          | '}' :: rest5 => some ((b, s), rest5)
          | _ => none
        | none => none
      | _ => none
    | none => none
  | _ => none

/-- Object sequence of a non-empty JSON array body, ending at `]`. -/
def parseItems : Nat → List Char → Option (List (List Char × List Char))
  | 0, _ => none
  | fuel + 1, cs =>
    match parseLinkObj cs with
    | none => none
    | some (p, rest) =>
      match rest with
      | [']'] => some [p]
      | ',' :: rest2 => (parseItems fuel rest2).map (p :: ·)
      | _ => none

/-- `JSON.parse` restricted to the compact-descriptor sublanguage the
encoder emits (sufficient for every claim, which evaluates decoding on
encoder outputs and concrete parameters). -/
def parseLinksJson (cs : List Char) : Option (List (List Char × List Char)) :=
  match cs with
  | ['[', ']'] => some []
  | '[' :: rest => parseItems rest.length rest
  | _ => none

/-- `TelegramBot.encodeLinksToParameter` before the 64-character check:
JSON of the compact list, base64, URL-safe, unpadded. -/
def encodeFull (links : List BotLink) : List Char :=
  encodeParamChars (utf8Bytes (jsonOfLinks links))

/-- `TelegramBot.encodeLinksToParameter`: `none` models the `null` returns
(single link still over the limit, or the head access throwing on an empty
list inside the `catch`). -/
def encodeLinksToParameter (links : List BotLink) : Option (List Char) :=
  let base64 := encodeFull links
  if 64 < base64.length then
    match links with
    | [] => none
    | l :: _ =>
      let single := encodeFull [l]
      if 64 < single.length then none else some single
  else some base64

/-- `TelegramBot.decodeStartParameter`: restore URL-safe characters and
padding, base64-decode, `JSON.parse`, rebuild full links.  `none` models
the `catch`-and-return-`null` path. -/
def decodeStartParameter (param : List Char) : Option (List BotLink) :=
  match parseLinksJson (bytesToChars (decodeParamChars param)) with
  | none => none
  | some pairs => some (pairs.map fun p =>
      { botUsername := String.mk p.1, startParameter := String.mk p.2,
        originalUrl := "https://t.me/" ++ String.mk p.1 ++ "?start=" ++ String.mk p.2 })

/-- The `(targetName, startToken)` pair of a link. -/
def linkKeyPair (l : BotLink) : String × String := (l.botUsername, l.startParameter)

/-- The Lean pair a parsed object yields for a link. -/
def linkDataPair (l : BotLink) : List Char × List Char :=
  (l.botUsername.data, l.startParameter.data)

/-! ## `TimeFormatter.formatWaitTime`

On the non-negative inputs that reach it, Lean's integer division and
remainder agree with the source's `Math.floor` and `%`. -/

/-- `String(n).padStart(2, '0')`. -/
def padStart2 (s : String) : String :=
  if 2 ≤ s.length then s else if s.length = 1 then "0" ++ s else "00" ++ s

/-- `formatWaitTime(seconds)`. -/
def formatWaitTime (seconds : Int) : String :=
  if seconds < 60 then toString seconds ++ " seconds"
  else padStart2 (toString (seconds / 60)) ++ ":" ++ padStart2 (toString (seconds % 60))

/-! ## `LinkParser` and `TelegramBot.handleMessage` link extraction

The global bot-link regex is embedded as a scanner: at each position it
tries to match one of the two literal domain prefixes, then a maximal
non-empty run of username characters, the literal start query, and a
maximal non-empty run of token characters (the regex classes contain
neither the query characters nor anything past the match, so greedy
matching with backtracking degenerates to maximal runs).  On failure it
advances one position, which is exactly the leftmost-match search of
`exec`. -/

/-- One of the two allowed domain prefixes at the current position. -/
def matchDomain (cs : List Char) : Option (List Char × List Char) :=
  if cs.take 13 = "https://t.me/".data then some ("https://t.me/".data, cs.drop 13)
  else if cs.take 20 = "https://telegram.me/".data then
    some ("https://telegram.me/".data, cs.drop 20)
  else none

/-- Try to match one full bot-start link at the current position, returning
the link and the remainder after the match. -/
def tryMatchLink (cs : List Char) : Option (BotLink × List Char) :=
  match matchDomain cs with
  | none => none
  | some (pre, rest) =>
    let uname := rest.takeWhile isUnameChar
    let rest2 := rest.dropWhile isUnameChar
    if uname = [] then none
    else if rest2.take 7 = "?start=".data then
      let rest3 := rest2.drop 7
      let tok := rest3.takeWhile isTokenChar
      let rest4 := rest3.dropWhile isTokenChar
      if tok = [] then none
      else some ({ botUsername := String.mk uname, startParameter := String.mk tok,
                   originalUrl := String.mk (pre ++ uname ++ "?start=".data ++ tok) }, rest4)
    else none

/-- The `while ((match = pattern.exec(text)) !== null)` loop: fuelled by the
text length, which bounds the number of scanner steps. -/
def scanLinksAux : Nat → List Char → List BotLink
  | 0, _ => []
  | _ + 1, [] => []
  | fuel + 1, c :: rest =>
    match tryMatchLink (c :: rest) with
    | some (l, remaining) => l :: scanLinksAux fuel remaining
    | none => scanLinksAux fuel rest

/-- All bot-start links of a text, in order. -/
def scanLinks (cs : List Char) : List BotLink := scanLinksAux cs.length cs

/-- `LinkParser.parseBotLinkFromUrl`: the first (leftmost) match of the
non-global regex. -/
def parseBotLinkFromUrl (url : String) : Option BotLink :=
  (scanLinks url.data).head?

/-- A message entity as `extractBotLinks` sees it: only the `url` field is
inspected (`if (entity.url)`). -/
structure MsgEntity where
  url : Option String
  deriving DecidableEq, Repr

/-- The per-entity step of `extractBotLinks` (an absent or empty `url` is
falsy and skipped). -/
def entityLink (e : MsgEntity) : Option BotLink :=
  match e.url with
  | some u => if u = "" then none else parseBotLinkFromUrl u
  | none => none

/-- `LinkParser.extractBotLinks(messageText, entities)`: entity links first,
then text links; an empty text is falsy and not scanned. -/
def extractBotLinks (messageText : String) (entities : List MsgEntity) : List BotLink :=
  entities.filterMap entityLink ++
    (if messageText = "" then [] else scanLinks messageText.data)

/-- JavaScript `a || b` for an optional string (empty string is falsy). -/
def truthyOr (a : Option String) (b : String) : String :=
  match a with
  | some s => if s = "" then b else s
  | none => b

/-- The link-extraction step of `TelegramBot.handleMessage`:
`text = msg.text || msg.caption || ''`,
`entities = msg.entities || msg.caption_entities || []`, then
`extractBotLinks(text, entities)` — presented to the request as is. -/
def handleMessageLinks (text caption : Option String)
    (entities captionEntities : Option (List MsgEntity)) : List BotLink :=
  extractBotLinks (truthyOr text (truthyOr caption ""))
    (entities.getD (captionEntities.getD []))

/-- The dedup key `botUsername:startParameter`. -/
def dedupKey (l : BotLink) : String :=
  l.botUsername ++ ":" ++ l.startParameter

/-- The `seen`-set filter loop shared by `TelegramBot.deduplicateLinks` and
`MessageMonitor.deduplicateLinks`. -/
def dedupAux : List BotLink → List String → List BotLink
  | [], _ => []
  | l :: rest, seen =>
    if dedupKey l ∈ seen then dedupAux rest seen
    else l :: dedupAux rest (dedupKey l :: seen)

/-- `deduplicateLinks(links)`. -/
def deduplicateLinks (links : List BotLink) : List BotLink :=
  dedupAux links []

/-! ## `RequestQueue` (src/index.js)

The queue is single-threaded and event-driven; every synchronous section
of the source becomes one atomic transition.  `addRequest` includes the
synchronous prefix of the `processNext` it may trigger; the deferred
`setImmediate(() => this.processNext())` after settlement is a separate
`tick` step.  `rejected` is a ghost log of requests refused at capacity
(the source drops them after emitting `queueFull`). -/

inductive RStatus where
  | queued
  | processing
  | completed
  | failed
  deriving DecidableEq, Repr

structure ReqRec where
  id : Nat
  userId : Nat
  status : RStatus
  deriving DecidableEq, Repr

structure QState where
  maxSize : Nat
  waiting : List ReqRec
  current : Option ReqRec
  done : List ReqRec
  rejected : List ReqRec
  processingFlag : Bool
  deriving DecidableEq, Repr

/-- `MAX_QUEUE_SIZE` default from `Config`. -/
def defaultMaxQueueSize : Nat := 100

/-- A fresh queue (`constructor`). -/
def initQState (maxSize : Nat) : QState :=
  ⟨maxSize, [], none, [], [], false⟩

/-- A request as `TelegramBot` creates it (`status: 'queued'`). -/
def mkReq (id userId : Nat) : ReqRec :=
  ⟨id, userId, .queued⟩

/-- The synchronous prefix of `processNext`: guard on the busy flag and the
empty queue, then shift the head and mark it `processing`. -/
def processNextStep (s : QState) : QState :=
  if s.processingFlag then s
  else
    match s.waiting with
    | [] => s
    | r :: rest =>
        { s with waiting := rest, current := some { r with status := .processing },
                 processingFlag := true }

/-- `addRequest(request)`: reject at capacity, otherwise mark `queued`,
append, and trigger `processNext` if not busy. -/
def addRequest (s : QState) (id userId : Nat) : Bool × QState :=
  if s.maxSize ≤ s.waiting.length then
    (false, { s with rejected := s.rejected ++ [mkReq id userId] })
  else
    let s1 := { s with waiting := s.waiting ++ [{ mkReq id userId with status := .queued }] }
    (true, if s1.processingFlag then s1 else processNextStep s1)

/-- Settlement of the in-flight request (`processingComplete`,
`processingFailed`, or the deadline timer): terminal status, busy flag
cleared.  With no request in flight the emitted event has no listener. -/
def settleStep (s : QState) (ok : Bool) : QState :=
  match s.current with
  | none => s
  | some r =>
      { s with current := none,
               done := s.done ++ [{ r with status := if ok then .completed else .failed }],
               processingFlag := false }

/-- One scheduler transition of the queue system. -/
inductive QStep : QState → QState → Prop where
  | add (id userId : Nat) (s : QState) : QStep s (addRequest s id userId).2
  | settle (ok : Bool) (s : QState) : QStep s (settleStep s ok)
  | tick (s : QState) : QStep s (processNextStep s)

/-- States reachable from a fresh queue under any interleaving of enqueue
calls, settlements and deferred scheduling ticks. -/
def QReachable (maxSize : Nat) (s : QState) : Prop :=
  Relation.ReflTransGen QStep (initQState maxSize) s

/-- Every request record the system holds. -/
def recsOf (s : QState) : List ReqRec :=
  s.waiting ++ s.current.toList ++ s.done ++ s.rejected

/-- Number of requests with `status = processing`, system-wide. -/
def countProcessing (s : QState) : Nat :=
  ((recsOf s).filter (fun r => r.status = .processing)).length

/-- `getQueuePosition(userId)`: 1-based position over the waiting array,
`-1` when absent. -/
def getQueuePosition (s : QState) (userId : Nat) : Int :=
  match s.waiting.findIdx? (fun r => r.userId = userId) with
  | none => -1
  | some i => (i : Int) + 1

/-- The inductive invariant of the queue system. -/
def QInv (s : QState) : Prop :=
  (∀ r ∈ s.waiting, r.status = .queued) ∧
  (∀ r ∈ s.done, r.status = .completed ∨ r.status = .failed) ∧
  (∀ r ∈ s.rejected, r.status = .queued) ∧
  (∀ r, s.current = some r → r.status = .processing) ∧
  (s.processingFlag = false → s.current = none)

/-! ## `BotInteractionHandler` (the interaction engine)

`interactWithBot` is embedded as a function over an environment recording
what each external call would return: resolution success, the outcome of
`sendStartCommand`- (the only sub-call that rethrows; every other helper
catches internally), the optional first response, the per-index join-call
outcomes, the two possible confirm-click results, and the inbound events
the media listener would see before its trailing-silence window elapses.
Timers are abstracted into these environment fields (`response = none` is
the 30-second timeout; the event list ends where the 10-second silence
window fires). -/

structure KBButton where
  url : Option String
  label : String
  cbData : String
  deriving DecidableEq, Repr

structure KBRow where
  buttons : List KBButton
  deriving DecidableEq, Repr

structure KBMarkup where
  rows : List KBRow
  deriving DecidableEq, Repr

/-- The first response message: optional inline keyboard and its text
(`message.text || message.message` collapsed to one field). -/
structure RespMsg where
  markup : Option KBMarkup
  msgText : String
  deriving DecidableEq, Repr

/-- `this.timeout` (30 seconds). -/
def interactionTimeoutMs : Nat := 30000

/-- The trailing-silence window of the media collector (10 seconds). -/
def mediaSilenceMs : Nat := 10000

/-- What one `joinChannelFromUrl` platform interaction amounted to. -/
inductive JoinCallRes where
  | joined
  | noMatch
  | noChats
  | alreadyMember
  | floodWaitErr (digits : Option (List Char))
  | otherErr
  deriving DecidableEq, Repr

/-- `parseInt` on the digit-only regex capture of the flood-wait message. -/
def parseDigits (ds : List Char) : Nat :=
  ds.foldl (fun acc c => acc * 10 + (c.toNat - 48)) 0

structure JoinRes where
  success : Bool
  floodWait : Int
  deriving DecidableEq, Repr

/-- `joinChannelFromUrl`: success on a join or an existing membership,
flood-wait seconds parsed from the error message, every other failure
caught into `{success: false, floodWait: 0}`. -/
def joinChannelFromUrl : JoinCallRes → JoinRes
  | .joined => ⟨true, 0⟩
  | .noMatch => ⟨false, 0⟩
  | .noChats => ⟨false, 0⟩
  | .alreadyMember => ⟨true, 0⟩
  | .floodWaitErr ds =>
      ⟨false, match ds with | some d => (parseDigits d : Int) | none => 0⟩
  | .otherErr => ⟨false, 0⟩

/-- `if (button.url)`: the url is present and truthy. -/
def hasUrlButton (b : KBButton) : Bool :=
  match b.url with
  | some u => u ≠ ""
  | none => false

/-- The join buttons: every url button of every row except the last. -/
def channelButtons (m : KBMarkup) : List KBButton :=
  m.rows.dropLast.flatMap (fun row => row.buttons.filter hasUrlButton)

/-- Loop state of `joinChannelsFromButtons`: successes, buttons attempted,
recorded flood wait. -/
structure JoinLoopOut where
  successCount : Nat
  attempted : Nat
  maxFloodWait : Int
  floodDetected : Bool
  deriving DecidableEq, Repr

/-- The join loop: count a success, and on the first positive flood wait
record `Math.max(0, w)` and break; otherwise continue with the next
button. -/
def joinLoopGo (joinFor : Nat → JoinCallRes) : List KBButton → Nat → JoinLoopOut
  | [], _ => ⟨0, 0, 0, false⟩
  | _ :: rest, i =>
      let r := joinChannelFromUrl (joinFor i)
      if 0 < r.floodWait then
        ⟨if r.success then 1 else 0, 1, max 0 r.floodWait, true⟩
      else
        let o := joinLoopGo joinFor rest (i + 1)
        ⟨(if r.success then 1 else 0) + o.successCount, 1 + o.attempted,
         o.maxFloodWait, o.floodDetected⟩

/-- Successes among `n` consecutive join calls starting at index `i`. -/
def countSucc (joinFor : Nat → JoinCallRes) : Nat → Nat → Nat
  | _, 0 => 0
  | i, n + 1 =>
      (if (joinChannelFromUrl (joinFor i)).success then 1 else 0) + countSucc joinFor (i + 1) n

structure JoinSummary where
  success : Bool
  floodWait : Int
  joinedCount : Nat
  deriving DecidableEq, Repr

/-- `joinChannelsFromButtons`, also reporting how many join choices were
attempted. -/
def joinChannelsFromButtons (joinFor : Nat → JoinCallRes) (m : KBMarkup) :
    JoinSummary × Nat :=
  let o := joinLoopGo joinFor (channelButtons m) 0
  if o.floodDetected then (⟨false, o.maxFloodWait, o.successCount⟩, o.attempted)
  else (⟨true, 0, o.successCount⟩, o.attempted)

/-- Result of one `GetBotCallbackAnswer` invocation. -/
inductive ConfirmRes where
  | answered (alert : Bool) (msg : Option String)
  | botTimeout
  | failed
  deriving DecidableEq, Repr

/-- `clickConfirmButton`: the expected `BOT_RESPONSE_TIMEOUT` is swallowed
into a no-alert result; any other error is caught into `null`. -/
def clickConfirmButton : ConfirmRes → Option (Bool × Option String)
  | .answered alert m => some (alert, m)
  | .botTimeout => some (false, none)
  | .failed => none

/-- `message.includes(sub)`. -/
def strIncludes (s sub : String) : Bool :=
  decide (sub.data <:+: s.data)

/-- One inbound event seen by the media listener, reduced to the fields the
collector inspects. -/
structure MediaMsg where
  fromBot : Bool
  hasMarkup : Bool
  hasMedia : Bool
  deriving DecidableEq, Repr

/-- Collector state of `waitAndForwardMediaMessagesWithRetry`
(`retryPasses` is a ghost counter of loop-back recovery passes). -/
structure CollectSt where
  retryAttempted : Bool
  mediaCount : Nat
  totalMessages : Nat
  retryPasses : Nat
  deriving DecidableEq, Repr

/-- One listener invocation: count the message; from the target responder,
a first re-sent keyboard triggers the single recovery pass (re-join,
re-click, fresh silence window) and is not collected; otherwise media is
collected and forwarded. -/
def collectStep (st : CollectSt) (m : MediaMsg) : CollectSt :=
  let st := { st with totalMessages := st.totalMessages + 1 }
  if m.fromBot then
    if !st.retryAttempted && m.hasMarkup then
      { st with retryAttempted := true, retryPasses := st.retryPasses + 1 }
    else if m.hasMedia then
      { st with mediaCount := st.mediaCount + 1 }
    else st
  else st

/-- The whole collection run: fold the listener over the events that arrive
before the trailing-silence window elapses, then resolve the counts. -/
def collectRun (events : List MediaMsg) : CollectSt :=
  events.foldl collectStep ⟨false, 0, 0, 0⟩

/-- Environment of one `interactWithBot` invocation. -/
structure InteractEnv where
  resolveOk : Bool
  sendStart : Except String Unit
  response : Option RespMsg
  joinFor : Nat → JoinCallRes
  confirm1 : ConfirmRes
  mediaEvents : List MediaMsg

/-- The per-target outcome record (`timestamp` omitted: wall clock).
`floodWait` is `some` exactly when the source attaches the field. -/
structure InteractionOutcome where
  botUsername : String
  responseText : String
  success : Bool
  error : Option String
  floodWait : Option Int
  deriving DecidableEq, Repr

/-- Ghost log of protocol-phase operations of one invocation: join choices
attempted by the Gating phase and confirm clicks by the Confirming phase
(the collector's own recovery pass is counted by `CollectSt.retryPasses`). -/
structure PhaseLog where
  joinAttempts : Nat
  confirmClicks : Nat
  deriving DecidableEq, Repr

/-- `interactWithBot`, with its phase log.  Branches in source order:
unresolvable bot; fault thrown by `sendStartCommand` converted by the
outer catch; no first response (success iff the listener collected media);
keyboard response (join loop, rate-limit early return, confirm click with
one popup-triggered retry); plain response (direct media). -/
def interactWithBotFull (env : InteractEnv) (link : BotLink) :
    InteractionOutcome × PhaseLog :=
  if !env.resolveOk then
    ({ botUsername := link.botUsername, responseText := "", success := false,
       error := some "Bot not found", floodWait := none }, ⟨0, 0⟩)
  else
    match env.sendStart with
    | .error e =>
        ({ botUsername := link.botUsername, responseText := "", success := false,
           error := some e, floodWait := none }, ⟨0, 0⟩)
    | .ok _ =>
      match env.response with
      | none =>
          let mediaResult := collectRun env.mediaEvents
          if 0 < mediaResult.mediaCount then
            ({ botUsername := link.botUsername,
               responseText := "Media forwarded (" ++ toString mediaResult.mediaCount ++
                 " file(s))",
               success := true, error := none, floodWait := none }, ⟨0, 0⟩)
          else
            ({ botUsername := link.botUsername, responseText := "", success := false,
               error := some "Bot response timeout - no message received",
               floodWait := none }, ⟨0, 0⟩)
      | some resp =>
        match resp.markup with
        | some mk =>
            let jr := joinChannelsFromButtons env.joinFor mk
            if !jr.1.success && 0 < jr.1.floodWait then
              ({ botUsername := link.botUsername,
                 responseText := "Rate limited: Please wait " ++
                   formatWaitTime jr.1.floodWait ++ ". Joined " ++
                   toString jr.1.joinedCount ++ " channels.",
                 success := false,
                 error := some ("FLOOD_WAIT: " ++ formatWaitTime jr.1.floodWait),
                 floodWait := some jr.1.floodWait }, ⟨jr.2, 0⟩)
            else
              let clicks :=
                match clickConfirmButton env.confirm1 with
                | some (true, some m) =>
                    if strIncludes m "join" || strIncludes m "عضو" ||
                       strIncludes m "subscribe" then 2 else 1
                | _ => 1
              ({ botUsername := link.botUsername,
                 responseText := "Channels joined, confirmed, and media forwarded",
                 success := true, error := none, floodWait := none }, ⟨jr.2, clicks⟩)
        | none =>
            ({ botUsername := link.botUsername,
               responseText := if resp.msgText = "" then "Media forwarded" else resp.msgText,
               success := true, error := none, floodWait := none }, ⟨0, 0⟩)

/-- `interactWithBot`: the outcome alone. -/
def interactWithBot (env : InteractEnv) (link : BotLink) : InteractionOutcome :=
  (interactWithBotFull env link).1

/-- JavaScript truthiness of `response.floodWait` in
`BotRequestHandler.handleRequest`. -/
def outcomeTruthyFlood (o : InteractionOutcome) : Bool :=
  match o.floodWait with
  | some w => w ≠ 0
  | none => false

/-- The per-link loop of `BotRequestHandler.handleRequest`, applied to the
outcomes the engine returns in order: number of links processed, and
whether the loop broke on a rate limit. -/
def processedCount : List InteractionOutcome → Nat × Bool
  | [] => (0, false)
  | o :: rest =>
      if !o.success && outcomeTruthyFlood o then (1, true)
      else
        let nh := processedCount rest
        (nh.1 + 1, nh.2)

/-! ### Concrete scenario inputs used by the witnesses -/

/-- Two join rows and one confirm row. -/
def wMarkup : KBMarkup :=
  ⟨[⟨[⟨some "https://t.me/c1", "c1", ""⟩]⟩,
    ⟨[⟨some "https://t.me/c2", "c2", ""⟩]⟩,
    ⟨[⟨none, "OK", "cb"⟩]⟩]⟩

/-- A first response carrying the keyboard above. -/
def wResp : RespMsg := ⟨some wMarkup, "choose"⟩

/-- First join succeeds, second hits a 45-second flood wait. -/
def wJoin : Nat → JoinCallRes :=
  fun i => if i = 0 then .joined else .floodWaitErr (some ['4', '5'])

/-- Environment of example scenario 2 (rate limit on the second join). -/
def wEnvRate : InteractEnv :=
  ⟨true, .ok (), some wResp, wJoin, .botTimeout, []⟩

/-- Environment where `sendStartCommand` throws. -/
def wEnvThrow : InteractEnv :=
  ⟨true, .error "Network failure", none, fun _ => .otherErr, .failed, []⟩

/-- Environment with no first response but one media item collected by the
pre-attached listener. -/
def wEnvDirect : InteractEnv :=
  ⟨true, .ok (), none, fun _ => .otherErr, .failed, [⟨true, false, true⟩]⟩

theorem b64_digit_roundtrip : ∀ v : Nat, v < 64 →
    b64Value (urlRestore (urlSafe (b64Char v))) = v := by decide

theorem b64_digit_ne_eq : ∀ v : Nat, v < 64 → urlSafe (b64Char v) ≠ '=' := by decide

theorem urlRestore_of_b64_digit_ne_eq : ∀ v : Nat, v < 64 →
    urlRestore (urlSafe (b64Char v)) ≠ '=' := by decide

theorem padB64_cons4 (x1 x2 x3 x4 : Char) (l : List Char) :
    padB64 (x1 :: x2 :: x3 :: x4 :: l) = x1 :: x2 :: x3 :: x4 :: padB64 l := by
  have hcnt : (4 - (l.length + 1 + 1 + 1 + 1) % 4) % 4 = (4 - l.length % 4) % 4 := by
    omega
  simp only [padB64, List.length_cons, hcnt, List.cons_append]

theorem stripEq_keep (c : Char) (h : c ≠ '=') (l : List Char) :
    stripEq (c :: l) = c :: stripEq l := by
  simp [stripEq, List.filter_cons, h]

theorem stripEq_drop (l : List Char) : stripEq ('=' :: l) = stripEq l := by
  simp [stripEq, List.filter_cons]

theorem decodeParamChars_two (x1 x2 : Char) :
    decodeParamChars [x1, x2] =
      [b64Value (urlRestore x1) * 4 + b64Value (urlRestore x2) / 16] := by
  have : padB64 [urlRestore x1, urlRestore x2] =
      [urlRestore x1, urlRestore x2, '=', '='] := by
    simp [padB64, List.replicate]
  simp only [decodeParamChars, List.map_cons, List.map_nil, this, b64Decode]
  simp

theorem decodeParamChars_three (x1 x2 x3 : Char) (h3 : urlRestore x3 ≠ '=') :
    decodeParamChars [x1, x2, x3] =
      [b64Value (urlRestore x1) * 4 + b64Value (urlRestore x2) / 16,
       b64Value (urlRestore x2) % 16 * 16 + b64Value (urlRestore x3) / 4] := by
  have : padB64 [urlRestore x1, urlRestore x2, urlRestore x3] =
      [urlRestore x1, urlRestore x2, urlRestore x3, '='] := by
    simp [padB64, List.replicate]
  simp only [decodeParamChars, List.map_cons, List.map_nil, this, b64Decode]
  simp [h3]

theorem decodeParamChars_cons4 (x1 x2 x3 x4 : Char) (l : List Char)
    (h3 : urlRestore x3 ≠ '=') (h4 : urlRestore x4 ≠ '=') :
    decodeParamChars (x1 :: x2 :: x3 :: x4 :: l) =
      (b64Value (urlRestore x1) * 4 + b64Value (urlRestore x2) / 16) ::
      (b64Value (urlRestore x2) % 16 * 16 + b64Value (urlRestore x3) / 4) ::
      (b64Value (urlRestore x3) % 4 * 64 + b64Value (urlRestore x4)) ::
      decodeParamChars l := by
  simp only [decodeParamChars, List.map_cons]
  rw [padB64_cons4]
  simp only [b64Decode]
  rw [if_neg h3, if_neg h4]

/-- The byte-level roundtrip: decoding recovers exactly the bytes that were
encoded, for any byte list. -/
theorem decodeParamChars_encodeParamChars (bytes : List Nat)
    (h : ∀ x ∈ bytes, x < 256) : decodeParamChars (encodeParamChars bytes) = bytes := by
  induction bytes using b64EncodePadded.induct with
  | case1 =>
      simp [encodeParamChars, decodeParamChars, b64EncodePadded, stripEq, padB64, b64Decode]
  | case2 a =>
      have ha : a < 256 := h a (by simp)
      have h1 : a / 4 < 64 := by omega
      have h2 : a % 4 * 16 < 64 := by omega
      have e1 : encodeParamChars [a] =
          [urlSafe (b64Char (a / 4)), urlSafe (b64Char (a % 4 * 16))] := by
        simp only [encodeParamChars, b64EncodePadded, List.map_cons, List.map_nil]
        rw [stripEq_keep _ (b64_digit_ne_eq _ h1), stripEq_keep _ (b64_digit_ne_eq _ h2)]
        have : urlSafe '=' = '=' := by decide
        rw [this, stripEq_drop, stripEq_drop]
        rfl
      rw [e1, decodeParamChars_two, b64_digit_roundtrip _ h1, b64_digit_roundtrip _ h2]
      simp only [List.cons.injEq, and_true]
      omega
  | case3 a b =>
      have ha : a < 256 := h a (by simp)
      have hb : b < 256 := h b (by simp)
      have h1 : a / 4 < 64 := by omega
      have h2 : a % 4 * 16 + b / 16 < 64 := by omega
      have h3 : b % 16 * 4 < 64 := by omega
      have e1 : encodeParamChars [a, b] =
          [urlSafe (b64Char (a / 4)), urlSafe (b64Char (a % 4 * 16 + b / 16)),
           urlSafe (b64Char (b % 16 * 4))] := by
        simp only [encodeParamChars, b64EncodePadded, List.map_cons, List.map_nil]
        rw [stripEq_keep _ (b64_digit_ne_eq _ h1), stripEq_keep _ (b64_digit_ne_eq _ h2),
          stripEq_keep _ (b64_digit_ne_eq _ h3)]
        have : urlSafe '=' = '=' := by decide
        rw [this, stripEq_drop]
        rfl
      rw [e1, decodeParamChars_three _ _ _ (urlRestore_of_b64_digit_ne_eq _ h3),
        b64_digit_roundtrip _ h1, b64_digit_roundtrip _ h2, b64_digit_roundtrip _ h3]
      simp only [List.cons.injEq, and_true]
      constructor
      · omega
      · omega
  | case4 a b c rest ih =>
      have ha : a < 256 := h a (by simp)
      have hb : b < 256 := h b (by simp)
      have hc : c < 256 := h c (by simp)
      have hrest : ∀ x ∈ rest, x < 256 := fun x hx => h x (by simp [hx])
      have h1 : a / 4 < 64 := by omega
      have h2 : a % 4 * 16 + b / 16 < 64 := by omega
      have h3 : b % 16 * 4 + c / 64 < 64 := by omega
      have h4 : c % 64 < 64 := by omega
      have e1 : encodeParamChars (a :: b :: c :: rest) =
          urlSafe (b64Char (a / 4)) :: urlSafe (b64Char (a % 4 * 16 + b / 16)) ::
          urlSafe (b64Char (b % 16 * 4 + c / 64)) :: urlSafe (b64Char (c % 64)) ::
          encodeParamChars rest := by
        simp only [encodeParamChars, b64EncodePadded, List.map_cons]
        rw [stripEq_keep _ (b64_digit_ne_eq _ h1), stripEq_keep _ (b64_digit_ne_eq _ h2),
          stripEq_keep _ (b64_digit_ne_eq _ h3), stripEq_keep _ (b64_digit_ne_eq _ h4)]
      rw [e1, decodeParamChars_cons4 _ _ _ _ _ (urlRestore_of_b64_digit_ne_eq _ h3)
        (urlRestore_of_b64_digit_ne_eq _ h4),
        b64_digit_roundtrip _ h1, b64_digit_roundtrip _ h2, b64_digit_roundtrip _ h3,
        b64_digit_roundtrip _ h4, ih hrest]
      simp only [List.cons.injEq, and_true]
      refine ⟨by omega, by omega, by omega⟩

theorem isUnameChar_isTokenChar {c : Char} (h : isUnameChar c = true) :
    isTokenChar c = true := by
  simp [isTokenChar, h]

theorem isTokenChar_lt128 {c : Char} (h : isTokenChar c = true) : c.toNat < 128 := by
  simp only [isTokenChar, isUnameChar, Bool.or_eq_true, Bool.and_eq_true,
    decide_eq_true_eq] at h
  rcases h with (((⟨h1, h2⟩ | ⟨h1, h2⟩) | ⟨h1, h2⟩) | h) | h
  · omega
  · omega
  · omega
  · subst h; decide
  · subst h; decide

theorem isTokenChar_ne_quote {c : Char} (h : isTokenChar c = true) : c ≠ '"' := by
  intro hEq
  subst hEq
  revert h
  decide

theorem dropWhile_no_quote (content rest : List Char) (h : ∀ c ∈ content, c ≠ '"') :
    (content ++ '"' :: rest).dropWhile (· ≠ '"') = '"' :: rest := by
  induction content with
  | nil => simp [List.dropWhile]
  | cons c cs ih =>
      have hc : c ≠ '"' := h c (by simp)
      rw [List.cons_append, List.dropWhile_cons, if_pos (by simpa using hc)]
      exact ih (fun x hx => h x (by simp [hx]))

theorem takeWhile_no_quote (content rest : List Char) (h : ∀ c ∈ content, c ≠ '"') :
    (content ++ '"' :: rest).takeWhile (· ≠ '"') = content := by
  induction content with
  | nil => simp [List.takeWhile]
  | cons c cs ih =>
      have hc : c ≠ '"' := h c (by simp)
      rw [List.cons_append, List.takeWhile_cons, if_pos (by simpa using hc)]
      rw [ih (fun x hx => h x (by simp [hx]))]

theorem parseStringContent_spec (content rest : List Char)
    (h : ∀ c ∈ content, c ≠ '"') :
    parseStringContent (content ++ '"' :: rest) = some (content, rest) := by
  unfold parseStringContent
  rw [dropWhile_no_quote _ _ h, takeWhile_no_quote _ _ h]
  rfl

theorem valid_b_chars {l : BotLink} (hv : ValidLink l) :
    ∀ c ∈ l.botUsername.data, c ≠ '"' := by
  intro c hc
  exact isTokenChar_ne_quote (isUnameChar_isTokenChar (by
    have := hv.1
    rw [List.all_eq_true] at this
    exact this c hc))

theorem valid_s_chars {l : BotLink} (hv : ValidLink l) :
    ∀ c ∈ l.startParameter.data, c ≠ '"' := by
  intro c hc
  exact isTokenChar_ne_quote (by
    have := hv.2
    rw [List.all_eq_true] at this
    exact this c hc)

theorem parseLinkObj_spec (l : BotLink) (hv : ValidLink l) (rest : List Char) :
    parseLinkObj (jsonOfLink l ++ rest) =
      some ((l.botUsername.data, l.startParameter.data), rest) := by
  have harg : jsonOfLink l ++ rest =
      '{' :: '"' :: 'b' :: '"' :: ':' :: '"' ::
      (l.botUsername.data ++ '"' :: (',' :: '"' :: 's' :: '"' :: ':' :: '"' ::
       (l.startParameter.data ++ '"' :: ('}' :: rest)))) := by
    simp [jsonOfLink]
  rw [harg]
  simp only [parseLinkObj]
  rw [parseStringContent_spec _ _ (valid_b_chars hv)]
  simp only []
  rw [parseStringContent_spec _ _ (valid_s_chars hv)]
  rfl

theorem jsonOfLink_length_pos (l : BotLink) : 0 < (jsonOfLink l).length := by
  simp [jsonOfLink]

theorem parseItems_spec (ls : List BotLink) : ∀ (l : BotLink) (fuel : Nat),
    (∀ x ∈ l :: ls, ValidLink x) →
    (jsonItems (l :: ls) ++ [']']).length ≤ fuel →
    parseItems fuel (jsonItems (l :: ls) ++ [']']) =
      some ((l :: ls).map linkDataPair) := by
  induction ls with
  | nil =>
      intro l fuel hv hfuel
      match fuel with
      | 0 =>
          exfalso
          simp only [List.length_append, List.length_cons, List.length_nil,
            Nat.le_zero] at hfuel
          omega
      | f + 1 =>
          simp only [jsonItems, parseItems]
          rw [parseLinkObj_spec l (hv l (by simp)) [']']]
          rfl
  | cons l2 rest ih =>
      intro l fuel hv hfuel
      have hsplit : jsonItems (l :: l2 :: rest) ++ [']'] =
          jsonOfLink l ++ (',' :: (jsonItems (l2 :: rest) ++ [']'])) := by
        simp [jsonItems]
      match fuel with
      | 0 =>
          exfalso
          rw [hsplit] at hfuel
          have := jsonOfLink_length_pos l
          simp only [List.length_append, List.length_cons, Nat.le_zero] at hfuel
          omega
      | f + 1 =>
          rw [hsplit]
          simp only [parseItems]
          rw [parseLinkObj_spec l (hv l (by simp)) (',' :: (jsonItems (l2 :: rest) ++ [']']))]
          simp only []
          rw [ih l2 f (fun x hx => hv x (by simp at hx; rcases hx with h | h <;> simp [h]))
            (by
              rw [hsplit] at hfuel
              have := jsonOfLink_length_pos l
              simp only [List.length_append, List.length_cons] at hfuel ⊢
              omega)]
          rfl

theorem parseLinksJson_jsonOfLinks (ls : List BotLink)
    (hv : ∀ x ∈ ls, ValidLink x) :
    parseLinksJson (jsonOfLinks ls) = some (ls.map linkDataPair) := by
  match ls with
  | [] => rfl
  | l :: rest =>
      have hshape : ∃ t, jsonItems (l :: rest) ++ [']'] = '{' :: t := by
        match rest with
        | [] => exact ⟨_, rfl⟩
        | a :: b => exact ⟨_, rfl⟩
      obtain ⟨t, ht⟩ := hshape
      show parseLinksJson ('[' :: (jsonItems (l :: rest) ++ [']'])) = _
      rw [ht]
      show parseItems ('{' :: t).length ('{' :: t) = _
      rw [← ht]
      exact parseItems_spec rest l _ hv (le_refl _)

theorem jsonOfLink_ascii (l : BotLink) (hv : ValidLink l) :
    ∀ c ∈ jsonOfLink l, c.toNat < 128 := by
  intro c hc
  have hb := hv.1
  have hs := hv.2
  rw [List.all_eq_true] at hb hs
  simp only [jsonOfLink, List.mem_cons] at hc
  rcases hc with rfl | rfl | rfl | rfl | rfl | rfl | hc
  · decide
  · decide
  · decide
  · decide
  · decide
  · decide
  rcases List.mem_append.1 hc with hmem | hc
  · exact isTokenChar_lt128 (isUnameChar_isTokenChar (by simpa using hb c hmem))
  simp only [List.mem_cons] at hc
  rcases hc with rfl | rfl | rfl | rfl | rfl | rfl | rfl | hc
  · decide
  · decide
  · decide
  · decide
  · decide
  · decide
  · decide
  rcases List.mem_append.1 hc with hmem | hc
  · exact isTokenChar_lt128 (by simpa using hs c hmem)
  simp only [List.mem_cons] at hc
  rcases hc with rfl | rfl | h
  · decide
  · decide
  · simp at h

theorem jsonItems_ascii (ls : List BotLink) (hv : ∀ x ∈ ls, ValidLink x) :
    ∀ c ∈ jsonItems ls, c.toNat < 128 := by
  induction ls with
  | nil => intro c hc; simp [jsonItems] at hc
  | cons l rest ih =>
      intro c hc
      match rest with
      | [] =>
          exact jsonOfLink_ascii l (hv l (by simp)) c hc
      | a :: b =>
          simp only [jsonItems, List.mem_append, List.mem_cons] at hc
          rcases hc with hc | rfl | hc
          · exact jsonOfLink_ascii l (hv l (by simp)) c hc
          · decide
          · exact ih (fun x hx => hv x (by simp at hx; rcases hx with h | h <;> simp [h])) c hc

theorem jsonOfLinks_ascii (ls : List BotLink) (hv : ∀ x ∈ ls, ValidLink x) :
    ∀ c ∈ jsonOfLinks ls, c.toNat < 128 := by
  intro c hc
  simp only [jsonOfLinks, List.mem_cons, List.mem_append] at hc
  rcases hc with rfl | hc | rfl | h
  · decide
  · exact jsonItems_ascii ls hv c hc
  · decide
  · simp at h

theorem string_mk_data (s : String) : String.mk s.data = s := by cases s; rfl

/-- Decoding an (untruncated) encoded parameter recovers the full link list,
with each link's `originalUrl` rebuilt from its two fields. -/
theorem decodeStartParameter_encodeFull (links : List BotLink)
    (hv : ∀ l ∈ links, ValidLink l) :
    decodeStartParameter (encodeFull links) =
      some (links.map fun l =>
        { botUsername := l.botUsername, startParameter := l.startParameter,
          originalUrl := "https://t.me/" ++ l.botUsername ++ "?start=" ++
            l.startParameter }) := by
  have hascii := jsonOfLinks_ascii links hv
  have hbytes : ∀ x ∈ utf8Bytes (jsonOfLinks links), x < 256 := by
    intro x hx
    simp only [utf8Bytes, List.mem_map] at hx
    obtain ⟨c, hc, rfl⟩ := hx
    have := hascii c hc
    omega
  unfold decodeStartParameter encodeFull
  rw [decodeParamChars_encodeParamChars _ hbytes]
  have hid : bytesToChars (utf8Bytes (jsonOfLinks links)) = jsonOfLinks links := by
    simp only [bytesToChars, utf8Bytes, List.map_map]
    generalize jsonOfLinks links = cs
    induction cs with
    | nil => rfl
    | cons c t ih => simp [Char.ofNat_toNat, ih]
  rw [hid, parseLinksJson_jsonOfLinks links hv]
  simp only [List.map_map]
  rfl

/-! ### Queue lemmas -/

theorem qinv_init (m : Nat) : QInv (initQState m) := by
  refine ⟨?_, ?_, ?_, ?_, ?_⟩ <;> simp [initQState]

theorem processNextStep_rejected (s : QState) :
    (processNextStep s).rejected = s.rejected := by
  unfold processNextStep
  split
  · rfl
  · split <;> rfl

theorem qinv_processNextStep (s : QState) (h : QInv s) : QInv (processNextStep s) := by
  obtain ⟨hw, hd, hr, hc, hf⟩ := h
  unfold processNextStep
  split
  · exact ⟨hw, hd, hr, hc, hf⟩
  · split
    · exact ⟨hw, hd, hr, hc, hf⟩
    · next r rest heq =>
        refine ⟨?_, hd, hr, ?_, ?_⟩
        · intro x hx
          exact hw x (by rw [heq]; simp [hx])
        · intro x hx
          simp only [Option.some.injEq] at hx
          rw [← hx]
        · intro hfalse
          simp at hfalse

theorem qinv_addRequest (s : QState) (id userId : Nat) (h : QInv s) :
    QInv (addRequest s id userId).2 := by
  obtain ⟨hw, hd, hr, hc, hf⟩ := h
  unfold addRequest
  split
  · refine ⟨hw, hd, ?_, hc, hf⟩
    intro r hrr
    simp only [List.mem_append, List.mem_singleton] at hrr
    rcases hrr with hrr | rfl
    · exact hr r hrr
    · rfl
  · have h1 : QInv { s with waiting := s.waiting ++ [{ mkReq id userId with status := .queued }] } := by
      refine ⟨?_, hd, hr, hc, hf⟩
      intro r hrr
      simp only [List.mem_append, List.mem_singleton] at hrr
      rcases hrr with hrr | rfl
      · exact hw r hrr
      · rfl
    simp only []
    split
    · exact h1
    · exact qinv_processNextStep _ h1

theorem qinv_settleStep (s : QState) (ok : Bool) (h : QInv s) : QInv (settleStep s ok) := by
  obtain ⟨hw, hd, hr, hc, hf⟩ := h
  unfold settleStep
  split
  · exact ⟨hw, hd, hr, hc, hf⟩
  · refine ⟨hw, ?_, hr, ?_, ?_⟩
    · intro r hrr
      simp only [List.mem_append, List.mem_singleton] at hrr
      rcases hrr with hrr | rfl
      · exact hd r hrr
      · cases ok <;> simp
    · intro r hrr
      simp at hrr
    · intro _
      rfl

theorem qinv_step {s t : QState} (hst : QStep s t) (h : QInv s) : QInv t := by
  cases hst with
  | add id userId s => exact qinv_addRequest s id userId h
  | settle ok s => exact qinv_settleStep s ok h
  | tick s => exact qinv_processNextStep s h

theorem qinv_reachable (m : Nat) (s : QState) (h : QReachable m s) : QInv s := by
  unfold QReachable at h
  induction h with
  | refl => exact qinv_init m
  | tail _ hstep ih => exact qinv_step hstep ih

theorem countProcessing_le_one_of_inv (s : QState) (h : QInv s) :
    countProcessing s ≤ 1 := by
  obtain ⟨hw, hd, hr, hc, _⟩ := h
  unfold countProcessing recsOf
  rw [List.filter_append, List.filter_append, List.filter_append]
  have hw' : s.waiting.filter (fun r => r.status = RStatus.processing) = [] := by
    rw [List.filter_eq_nil_iff]
    intro r hrr
    simp [hw r hrr]
  have hd' : s.done.filter (fun r => r.status = RStatus.processing) = [] := by
    rw [List.filter_eq_nil_iff]
    intro r hrr
    rcases hd r hrr with h1 | h1 <;> simp [h1]
  have hr' : s.rejected.filter (fun r => r.status = RStatus.processing) = [] := by
    rw [List.filter_eq_nil_iff]
    intro r hrr
    simp [hr r hrr]
  rw [hw', hd', hr']
  simp only [List.nil_append, List.append_nil, List.length_append, List.length_nil]
  cases s.current with
  | none => simp
  | some r => by_cases hp : r.status = RStatus.processing <;> simp [hp]

theorem addRequest_rejected_mono (s : QState) (id userId : Nat) :
    ∀ r ∈ s.rejected, r ∈ (addRequest s id userId).2.rejected := by
  intro r hrr
  unfold addRequest
  split
  · simp [hrr]
  · simp only []
    split
    · exact hrr
    · rw [processNextStep_rejected]
      exact hrr

theorem settleStep_rejected (s : QState) (ok : Bool) :
    (settleStep s ok).rejected = s.rejected := by
  unfold settleStep
  split <;> rfl

theorem rejected_mono_step {s t : QState} (hst : QStep s t) :
    ∀ r ∈ s.rejected, r ∈ t.rejected := by
  cases hst with
  | add id userId s => exact addRequest_rejected_mono s id userId
  | settle ok s => intro r hrr; rw [settleStep_rejected]; exact hrr
  | tick s => intro r hrr; rw [processNextStep_rejected]; exact hrr

theorem rejected_mono {s t : QState} (h : Relation.ReflTransGen QStep s t) :
    ∀ r ∈ s.rejected, r ∈ t.rejected := by
  induction h with
  | refl => intro r hrr; exact hrr
  | tail _ hstep ih => intro r hrr; exact rejected_mono_step hstep r (ih r hrr)

/-! ### Engine lemmas -/

theorem joinLoopGo_flood (f : Nat → JoinCallRes) :
    ∀ (btns : List KBButton) (i k : Nat), k < btns.length →
    0 < (joinChannelFromUrl (f (i + k))).floodWait →
    (∀ j, j < k → (joinChannelFromUrl (f (i + j))).floodWait ≤ 0) →
    joinLoopGo f btns i =
      ⟨countSucc f i (k + 1), k + 1,
       max 0 (joinChannelFromUrl (f (i + k))).floodWait, true⟩ := by
  intro btns
  induction btns with
  | nil => intro i k hk; intro _ _; simp at hk
  | cons b rest ih =>
      intro i k hk hfl hpre
      match k with
      | 0 =>
          simp only [Nat.add_zero] at hfl
          simp only [joinLoopGo]
          rw [if_pos hfl]
          simp [countSucc, Nat.add_zero]
      | k' + 1 =>
          have h0 : (joinChannelFromUrl (f i)).floodWait ≤ 0 := by
            have := hpre 0 (by omega)
            simpa using this
          simp only [joinLoopGo]
          rw [if_neg (by omega)]
          have harg : i + 1 + k' = i + (k' + 1) := by omega
          have hrec := ih (i + 1) k' (by simpa using hk)
            (by rw [harg]; exact hfl)
            (by
              intro j hj
              have := hpre (j + 1) (by omega)
              have harg2 : i + (j + 1) = i + 1 + j := by omega
              rw [harg2] at this
              exact this)
          rw [hrec, harg]
          have hsucc : (if (joinChannelFromUrl (f i)).success then 1 else 0) +
              countSucc f (i + 1) (k' + 1) = countSucc f i (k' + 1 + 1) := rfl
          simp only [hsucc]
          congr 1
          omega

theorem joinChannelsFromButtons_flood (f : Nat → JoinCallRes) (m : KBMarkup) (k : Nat)
    (hk : k < (channelButtons m).length)
    (hfl : 0 < (joinChannelFromUrl (f k)).floodWait)
    (hpre : ∀ j, j < k → (joinChannelFromUrl (f j)).floodWait ≤ 0) :
    joinChannelsFromButtons f m =
      (⟨false, (joinChannelFromUrl (f k)).floodWait, countSucc f 0 (k + 1)⟩, k + 1) := by
  unfold joinChannelsFromButtons
  rw [joinLoopGo_flood f (channelButtons m) 0 k hk (by simpa using hfl)
    (by intro j hj; simpa using hpre j hj)]
  simp only [Nat.zero_add]
  rw [max_eq_right (le_of_lt (by simpa using hfl))]
  simp

theorem joinChannelFromUrl_floodWait_nonneg (r : JoinCallRes) :
    0 ≤ (joinChannelFromUrl r).floodWait := by
  cases r with
  | floodWaitErr ds =>
      cases ds with
      | none => simp [joinChannelFromUrl]
      | some d => simp [joinChannelFromUrl]
  | joined => simp [joinChannelFromUrl]
  | noMatch => simp [joinChannelFromUrl]
  | noChats => simp [joinChannelFromUrl]
  | alreadyMember => simp [joinChannelFromUrl]
  | otherErr => simp [joinChannelFromUrl]

theorem processedCount_halt (o : InteractionOutcome)
    (hs : o.success = false) (hf : outcomeTruthyFlood o = true) :
    ∀ pre post : List InteractionOutcome,
    (∀ p ∈ pre, (!p.success && outcomeTruthyFlood p) = false) →
    processedCount (pre ++ o :: post) = (pre.length + 1, true) := by
  intro pre
  induction pre with
  | nil =>
      intro post _
      simp only [List.nil_append, processedCount]
      rw [if_pos (by simp [hs, hf])]
      simp
  | cons p pres ih =>
      intro post hpre
      simp only [List.cons_append, processedCount]
      rw [if_neg (by simp [hpre p (by simp)])]
      simp only [List.append_eq]
      rw [ih post (fun x hx => hpre x (by simp [hx]))]
      simp

theorem collectStep_props (st : CollectSt) (m : MediaMsg)
    (h0 : st.retryAttempted = false → st.retryPasses = 0)
    (h1 : st.retryAttempted = true → st.retryPasses = 1) :
    ((collectStep st m).retryAttempted = false → (collectStep st m).retryPasses = 0) ∧
    ((collectStep st m).retryAttempted = true → (collectStep st m).retryPasses = 1) ∧
    (st.retryAttempted = true → (collectStep st m).retryAttempted = true) ∧
    (m.fromBot = true ∧ m.hasMarkup = true → (collectStep st m).retryAttempted = true) := by
  unfold collectStep
  by_cases hfb : m.fromBot = true
  · by_cases hra : st.retryAttempted = true
    · by_cases hmed : m.hasMedia = true
      · simp [hfb, hra, hmed, h0, h1]
      · simp [hfb, hra, hmed, h0, h1]
    · have hra' : st.retryAttempted = false := by
        cases h : st.retryAttempted
        · rfl
        · exact absurd h hra
      by_cases hmk : m.hasMarkup = true
      · simp [hfb, hra', hmk, h0 hra']
      · by_cases hmed : m.hasMedia = true
        · simp [hfb, hra', hmk, hmed, h0, h1]
        · simp [hfb, hra', hmk, hmed, h0, h1]
  · have hfb' : m.fromBot = false := by
      cases h : m.fromBot
      · rfl
      · exact absurd h hfb
    simp only [hfb', Bool.false_eq_true, if_false]
    refine ⟨h0, h1, fun h => h, ?_⟩
    rintro ⟨h, _⟩
    exact h.elim

theorem collect_foldl_retry (events : List MediaMsg) : ∀ st : CollectSt,
    (st.retryAttempted = false → st.retryPasses = 0) →
    (st.retryAttempted = true → st.retryPasses = 1) →
    (((events.foldl collectStep st).retryAttempted = false →
        (events.foldl collectStep st).retryPasses = 0) ∧
     ((events.foldl collectStep st).retryAttempted = true →
        (events.foldl collectStep st).retryPasses = 1) ∧
     (st.retryAttempted = true → (events.foldl collectStep st).retryAttempted = true) ∧
     ((∃ m ∈ events, m.fromBot = true ∧ m.hasMarkup = true) →
        (events.foldl collectStep st).retryAttempted = true)) := by
  induction events with
  | nil =>
      intro st h0 h1
      refine ⟨h0, h1, fun h => h, ?_⟩
      rintro ⟨m, hm, _⟩
      simp at hm
  | cons m rest ih =>
      intro st h0 h1
      simp only [List.foldl_cons]
      obtain ⟨k0, k1, k2, k3⟩ := collectStep_props st m h0 h1
      obtain ⟨r0, r1, r2, r3⟩ := ih (collectStep st m) k0 k1
      refine ⟨r0, r1, fun h => r2 (k2 h), ?_⟩
      rintro ⟨m', hm', hprop⟩
      simp only [List.mem_cons] at hm'
      rcases hm' with rfl | hm'
      · exact r2 (k3 hprop)
      · exact r3 ⟨m', hm', hprop⟩

theorem collectStep_media (st : CollectSt) (m : MediaMsg)
    (hnm : m.hasMarkup = true → m.hasMedia = false) :
    (collectStep st m).mediaCount =
      st.mediaCount + (if m.fromBot && m.hasMedia then 1 else 0) := by
  unfold collectStep
  by_cases hfb : m.fromBot = true
  · by_cases hmk : m.hasMarkup = true
    · have hmed := hnm hmk
      by_cases hra : st.retryAttempted = true
      · simp [hfb, hmk, hmed, hra]
      · have hra' : st.retryAttempted = false := by
          cases h : st.retryAttempted
          · rfl
          · exact absurd h hra
        simp [hfb, hmk, hmed, hra']

    · by_cases hmed : m.hasMedia = true
      · by_cases hra : st.retryAttempted = true
        · simp [hfb, hmk, hmed, hra]
        · have hra' : st.retryAttempted = false := by
            cases h : st.retryAttempted
            · rfl
            · exact absurd h hra
          have hmk' : m.hasMarkup = false := by
            cases h : m.hasMarkup
            · rfl
            · exact absurd h hmk
          simp [hfb, hmk', hmed, hra']
      · have hmed' : m.hasMedia = false := by
          cases h : m.hasMedia
          · rfl
          · exact absurd h hmed
        by_cases hra : st.retryAttempted = true
        · simp [hfb, hmed', hra]
        · have hra' : st.retryAttempted = false := by
            cases h : st.retryAttempted
            · rfl
            · exact absurd h hra
          have hmk' : m.hasMarkup = false := by
            cases h : m.hasMarkup
            · rfl
            · exact absurd h hmk
          simp [hfb, hmk', hmed', hra']
  · have hfb' : m.fromBot = false := by
      cases h : m.fromBot
      · rfl
      · exact absurd h hfb
    simp [hfb']

theorem collect_foldl_media (events : List MediaMsg) : ∀ st : CollectSt,
    (∀ m ∈ events, m.hasMarkup = true → m.hasMedia = false) →
    (events.foldl collectStep st).mediaCount =
      st.mediaCount + (events.filter (fun m => m.fromBot && m.hasMedia)).length := by
  induction events with
  | nil => intro st _; simp
  | cons m rest ih =>
      intro st hnm
      simp only [List.foldl_cons, List.filter_cons]
      rw [ih (collectStep st m) (fun x hx => hnm x (by simp [hx]))]
      rw [collectStep_media st m (hnm m (by simp))]
      by_cases hc : (m.fromBot && m.hasMedia) = true
      · simp [hc]
        omega
      · have hc' : (m.fromBot && m.hasMedia) = false := by
          cases h : (m.fromBot && m.hasMedia)
          · rfl
          · exact absurd h hc
        simp [hc']

theorem collectStep_total (st : CollectSt) (m : MediaMsg) :
    (collectStep st m).totalMessages = st.totalMessages + 1 := by
  unfold collectStep
  by_cases hfb : m.fromBot = true
  · by_cases hra : st.retryAttempted = true <;>
      by_cases hmk : m.hasMarkup = true <;>
      by_cases hmed : m.hasMedia = true <;>
      simp_all
  · simp_all

theorem collect_foldl_total (events : List MediaMsg) : ∀ st : CollectSt,
    (events.foldl collectStep st).totalMessages = st.totalMessages + events.length := by
  induction events with
  | nil => intro st; simp
  | cons m rest ih =>
      intro st
      simp only [List.foldl_cons, List.length_cons]
      rw [ih (collectStep st m), collectStep_total]
      omega

/-! ## Claim theorems -/

set_option maxRecDepth 16384 in
/-- C1, counterexample: a single target whose own encoding exceeds 64
characters makes the whole-list encoding exceed 64, yet
`encodeLinksToParameter` returns `null` — there is no encoded parameter at
all, so decoding it cannot yield the truncated single-target list the
claim promises for every longer list. -/
theorem c1_counterexample :
    64 < (encodeFull [⟨String.mk (List.replicate 100 'a'), "x", ""⟩]).length ∧
    encodeLinksToParameter [⟨String.mk (List.replicate 100 'a'), "x", ""⟩] = none := by
  constructor
  · decide
  · decide

/-- C1, amended: for link lists over the regex character classes, when the
full encoding is within the 64-character limit the encoder emits it and
decoding recovers exactly the original `(targetName, startToken)` pairs;
when the full encoding exceeds the limit *and the single-target
re-encoding is within it*, the encoder emits the single-target parameter
and decoding recovers exactly the first target's pair. -/
theorem c1_roundtrip_amended (links : List BotLink)
    (hv : ∀ l ∈ links, ValidLink l) :
    ((encodeFull links).length ≤ 64 →
      encodeLinksToParameter links = some (encodeFull links) ∧
      ∃ out, decodeStartParameter (encodeFull links) = some out ∧
        out.map linkKeyPair = links.map linkKeyPair) ∧
    (∀ l rest, links = l :: rest → 64 < (encodeFull links).length →
      (encodeFull [l]).length ≤ 64 →
      encodeLinksToParameter links = some (encodeFull [l]) ∧
      ∃ out, decodeStartParameter (encodeFull [l]) = some out ∧
        out.map linkKeyPair = [l].map linkKeyPair) := by
  constructor
  · intro hlen
    constructor
    · simp only [encodeLinksToParameter]
      rw [if_neg (by omega)]
    · refine ⟨_, decodeStartParameter_encodeFull links hv, ?_⟩
      simp only [List.map_map]
      rfl
  · intro l rest hcons hlong hshort
    have hl : ValidLink l := hv l (by rw [hcons]; simp)
    have hvl : ∀ x ∈ [l], ValidLink x := by
      intro x hx
      simp only [List.mem_singleton] at hx
      subst hx
      exact hl
    rw [hcons] at hlong ⊢
    constructor
    · simp only [encodeLinksToParameter]
      rw [if_pos hlong]
      show (if 64 < (encodeFull [l]).length then none else some (encodeFull [l])) =
        some (encodeFull [l])
      rw [if_neg (by omega)]
    · refine ⟨_, decodeStartParameter_encodeFull [l] hvl, ?_⟩
      simp only [List.map_map]
      rfl

/-- Witness for C1 at a concrete short list. -/
theorem c1_witness :
    encodeLinksToParameter [⟨"A", "x", "https://t.me/A?start=x"⟩] =
      some (encodeFull [⟨"A", "x", "https://t.me/A?start=x"⟩]) ∧
    ∃ out, decodeStartParameter (encodeFull [⟨"A", "x", "https://t.me/A?start=x"⟩]) =
        some out ∧
      out.map linkKeyPair = [⟨"A", "x", "https://t.me/A?start=x"⟩].map linkKeyPair :=
  (c1_roundtrip_amended [⟨"A", "x", "https://t.me/A?start=x"⟩] (by decide)).1 (by decide)

/-- C9: when the full list's encoding exceeds the 64-character deep-link
limit, the encoder re-encodes using only the first target; if even that
single-target encoding exceeds the limit, encoding fails with `null` so
the caller falls back. -/
theorem c9_truncation (links : List BotLink) (l : BotLink) (rest : List BotLink)
    (hcons : links = l :: rest) (hlong : 64 < (encodeFull links).length) :
    encodeLinksToParameter links =
      if 64 < (encodeFull [l]).length then none else some (encodeFull [l]) := by
  subst hcons
  simp only [encodeLinksToParameter]
  rw [if_pos hlong]

set_option maxRecDepth 16384 in
/-- Witness for C9: a two-target list truncates to its first target; a
single oversized target fails to encode. -/
theorem c9_witness :
    encodeLinksToParameter
        [⟨"SomeBot", "tok-1_z", ""⟩, ⟨"Other_Bot", "abc", ""⟩] =
      some (encodeFull [⟨"SomeBot", "tok-1_z", ""⟩]) ∧
    encodeLinksToParameter [⟨String.mk (List.replicate 100 'b'), "x", ""⟩] = none := by
  constructor
  · rw [c9_truncation _ ⟨"SomeBot", "tok-1_z", ""⟩ _ rfl (by decide)]
    rw [if_neg (by decide)]
  · rw [c9_truncation _ ⟨String.mk (List.replicate 100 'b'), "x", ""⟩ _ rfl (by decide)]
    rw [if_pos (by decide)]

/-- C2: in every state reachable from a fresh queue under any interleaving
of enqueue calls, settlements and scheduling ticks, at most one request
system-wide has `status = processing` — the single busy flag never lets a
second request be dequeued and marked before the current one settles. -/
theorem c2_at_most_one_processing {m : Nat} {s : QState} (h : QReachable m s) :
    countProcessing s ≤ 1 :=
  countProcessing_le_one_of_inv s (qinv_reachable m s h)

/-- Witness for C2 at the state reached by one enqueue (which immediately
starts processing). -/
theorem c2_witness : countProcessing (addRequest (initQState 100) 1 7).2 ≤ 1 :=
  c2_at_most_one_processing
    (Relation.ReflTransGen.single (QStep.add 1 7 (initQState 100)))

/-- C4: `addRequest` at capacity rejects the request (`false` return, the
`queueFull` signal path), leaves the queue contents untouched, and the
rejected request — created `queued` — stays in the rejection log with
status `queued` in every later state, never reaching `processing`; below
capacity it returns `true`, appends the request marked `queued` (it is in
the waiting list, or already shifted to `processing` by the triggered
`processNext`), and triggers processing whenever the queue was idle. -/
theorem c4_enqueue (s : QState) (id userId : Nat) :
    (s.maxSize ≤ s.waiting.length →
      (addRequest s id userId).1 = false ∧
      (addRequest s id userId).2.waiting = s.waiting ∧
      (addRequest s id userId).2.current = s.current ∧
      (addRequest s id userId).2.rejected = s.rejected ++ [mkReq id userId] ∧
      (mkReq id userId).status = RStatus.queued ∧
      (∀ t, Relation.ReflTransGen QStep (addRequest s id userId).2 t →
        mkReq id userId ∈ t.rejected) ∧
      RStatus.queued ≠ RStatus.processing) ∧
    (s.waiting.length < s.maxSize →
      (addRequest s id userId).1 = true ∧
      ({ mkReq id userId with status := RStatus.queued } ∈
          (addRequest s id userId).2.waiting ∨
        (addRequest s id userId).2.current =
          some { mkReq id userId with status := RStatus.processing }) ∧
      (s.processingFlag = false → (addRequest s id userId).2.processingFlag = true) ∧
      (s.processingFlag = true →
        (addRequest s id userId).2.waiting =
          s.waiting ++ [{ mkReq id userId with status := RStatus.queued }])) := by
  constructor
  · intro hcap
    have hadd : addRequest s id userId =
        (false, { s with rejected := s.rejected ++ [mkReq id userId] }) := by
      unfold addRequest
      rw [if_pos hcap]
    rw [hadd]
    refine ⟨rfl, rfl, rfl, rfl, rfl, ?_, by decide⟩
    intro t ht
    exact rejected_mono ht (mkReq id userId) (by simp)
  · intro hcap
    have hne : ¬ s.maxSize ≤ s.waiting.length := by omega
    have hadd : addRequest s id userId =
        (true,
          if s.processingFlag then
            { s with waiting := s.waiting ++ [{ mkReq id userId with status := .queued }] }
          else processNextStep
            { s with waiting := s.waiting ++ [{ mkReq id userId with status := .queued }] }) := by
      unfold addRequest
      rw [if_neg hne]
    rw [hadd]
    refine ⟨rfl, ?_, ?_, ?_⟩
    · by_cases hf : s.processingFlag = true
      · rw [if_pos hf]
        left
        simp
      · have hf' : s.processingFlag = false := by
          cases h : s.processingFlag
          · rfl
          · exact absurd h hf
        rw [if_neg hf]
        unfold processNextStep
        rw [if_neg (by simp [hf'])]
        cases hw : s.waiting with
        | nil =>
            right
            rfl
        | cons w ws =>
            left
            simp
    · intro hf'
      rw [if_neg (by simp [hf'])]
      unfold processNextStep
      rw [if_neg (by simp [hf'])]
      cases hw : s.waiting with
      | nil => simp [hw]
      | cons w ws => simp [hw]
    · intro hf
      rw [if_pos hf]

/-- Witness for C4: a queue already holding 100 waiting requests (the
default capacity) rejects the 101st, and a fresh queue accepts a first
request. -/
theorem c4_witness :
    (addRequest
        ⟨defaultMaxQueueSize, List.replicate 100 (mkReq 0 5), none, [], [], false⟩
        9 7).1 = false ∧
    (addRequest (initQState 100) 1 7).1 = true :=
  ⟨((c4_enqueue ⟨defaultMaxQueueSize, List.replicate 100 (mkReq 0 5), none, [], [], false⟩
      9 7).1 (by decide)).1,
   ((c4_enqueue (initQState 100) 1 7).2 (by decide)).1⟩

/-- C10, counterexample: the claim fails when the requester of the request
being processed also has a second request waiting — starting the first
request removed it from the waiting array, but `getQueuePosition` finds
the second one and returns `1`, not `-1`.  The state is built by two
`addRequest` calls from a fresh queue. -/
theorem c10_counterexample :
    (addRequest (addRequest (initQState 100) 1 7).2 2 7).2.current =
      some ⟨1, 7, RStatus.processing⟩ ∧
    getQueuePosition (addRequest (addRequest (initQState 100) 1 7).2 2 7).2 7 = 1 := by
  constructor
  · decide
  · decide

/-- C10, amended: when the requester of the currently processed request has
no other waiting request, `getQueuePosition` returns `-1`; positions are
1-based over the waiting array only, the head waiting request having
position `1`. -/
theorem c10_position (s : QState) (r : ReqRec) (_hcur : s.current = some r)
    (hunique : ∀ q ∈ s.waiting, q.userId ≠ r.userId) :
    getQueuePosition s r.userId = -1 ∧
    (∀ q rest, s.waiting = q :: rest → getQueuePosition s q.userId = 1) := by
  constructor
  · unfold getQueuePosition
    have hnone : s.waiting.findIdx? (fun x => x.userId = r.userId) = none := by
      rw [List.findIdx?_eq_none_iff]
      intro q hq
      simp [hunique q hq]
    rw [hnone]
  · intro q rest hw
    unfold getQueuePosition
    rw [hw, List.findIdx?_cons]
    simp

/-- Witness for C10 at a concrete state: the processed requester (user 7)
is reported absent; the head waiting requester (user 8) has position 1. -/
theorem c10_witness :
    getQueuePosition
      ⟨100, [⟨2, 8, RStatus.queued⟩], some ⟨1, 7, RStatus.processing⟩, [], [], true⟩ 7 =
        -1 ∧
    getQueuePosition
      ⟨100, [⟨2, 8, RStatus.queued⟩], some ⟨1, 7, RStatus.processing⟩, [], [], true⟩ 8 =
        1 := by
  obtain ⟨h1, h2⟩ := c10_position
    ⟨100, [⟨2, 8, RStatus.queued⟩], some ⟨1, 7, RStatus.processing⟩, [], [], true⟩
    ⟨1, 7, RStatus.processing⟩ rfl (by decide)
  exact ⟨h1, h2 ⟨2, 8, RStatus.queued⟩ [] rfl⟩

/-- C3: when the first rate-limited join is the `k`-th join choice, the
per-target outcome is a failure carrying that (non-negative) wait and the
partial join count, exactly `k + 1` join choices were attempted (none
after the rate limit), and the coordinator's per-link loop processes no
link after this target — the whole request halts. -/
theorem c3_ratelimit_halts (env : InteractEnv) (link : BotLink) (resp : RespMsg)
    (mkp : KBMarkup) (k : Nat)
    (hres : env.resolveOk = true)
    (hsend : env.sendStart = Except.ok ())
    (hresp : env.response = some resp)
    (hmk : resp.markup = some mkp)
    (hk : k < (channelButtons mkp).length)
    (hfl : 0 < (joinChannelFromUrl (env.joinFor k)).floodWait)
    (hpre : ∀ j, j < k → (joinChannelFromUrl (env.joinFor j)).floodWait ≤ 0) :
    (interactWithBotFull env link).1.success = false ∧
    (interactWithBotFull env link).1.floodWait =
      some (joinChannelFromUrl (env.joinFor k)).floodWait ∧
    0 ≤ (joinChannelFromUrl (env.joinFor k)).floodWait ∧
    (interactWithBotFull env link).1.responseText =
      "Rate limited: Please wait " ++
        formatWaitTime (joinChannelFromUrl (env.joinFor k)).floodWait ++
      ". Joined " ++ toString (countSucc env.joinFor 0 (k + 1)) ++ " channels." ∧
    (interactWithBotFull env link).2.joinAttempts = k + 1 ∧
    (∀ pre post : List InteractionOutcome,
      (∀ p ∈ pre, (!p.success && outcomeTruthyFlood p) = false) →
      processedCount (pre ++ (interactWithBotFull env link).1 :: post) =
        (pre.length + 1, true)) := by
  obtain ⟨ro, ss, rsp, jf, cf, me⟩ := env
  simp only at hres hsend hresp hfl hpre ⊢
  subst hres
  subst hsend
  subst hresp
  obtain ⟨rmk, rtext⟩ := resp
  simp only at hmk
  subst hmk
  have hred : interactWithBotFull ⟨true, Except.ok (), some ⟨some mkp, rtext⟩, jf, cf, me⟩ link =
      ({ botUsername := link.botUsername,
         responseText := "Rate limited: Please wait " ++
             formatWaitTime (joinChannelFromUrl (jf k)).floodWait ++
           ". Joined " ++ toString (countSucc jf 0 (k + 1)) ++ " channels.",
         success := false,
         error := some ("FLOOD_WAIT: " ++ formatWaitTime (joinChannelFromUrl (jf k)).floodWait),
         floodWait := some (joinChannelFromUrl (jf k)).floodWait }, ⟨k + 1, 0⟩) := by
    show (if !true then _ else _) = _
    rw [if_neg (by simp)]
    show (let jr := joinChannelsFromButtons jf mkp; if !jr.1.success && 0 < jr.1.floodWait
      then _ else _) = _
    rw [joinChannelsFromButtons_flood jf mkp k hk hfl hpre]
    simp only []
    rw [if_pos (by simp [hfl])]
  rw [hred]
  refine ⟨rfl, rfl, le_of_lt hfl, rfl, rfl, ?_⟩
  intro pre post hpre'
  exact processedCount_halt _ rfl
    (by
      simp only [outcomeTruthyFlood]
      simp only [decide_eq_true_eq]
      omega)
    pre post hpre'

/-- Witness for C3: example scenario 2 — the second join returns a
45-second flood wait; one join succeeded, two were attempted, and the
coordinator halts after this target. -/
theorem c3_witness :
    (interactWithBotFull wEnvRate ⟨"SomeBot", "s1", ""⟩).1.success = false ∧
    (interactWithBotFull wEnvRate ⟨"SomeBot", "s1", ""⟩).1.floodWait = some 45 ∧
    (interactWithBotFull wEnvRate ⟨"SomeBot", "s1", ""⟩).2.joinAttempts = 2 ∧
    processedCount
      [(interactWithBotFull wEnvRate ⟨"SomeBot", "s1", ""⟩).1,
       ⟨"Other", "", true, none, none⟩] = (1, true) := by
  obtain ⟨h1, h2, _, _, h5, h6⟩ := c3_ratelimit_halts wEnvRate ⟨"SomeBot", "s1", ""⟩
    wResp wMarkup 1 rfl rfl rfl rfl (by decide) (by decide) (by decide)
  refine ⟨h1, ?_, h5, ?_⟩
  · rw [h2]
    decide
  · have := h6 [] [⟨"Other", "", true, none, none⟩] (by intro p hp; simp at hp)
    simpa using this

/-- C5: an internal fault never escapes `interactWithBot` — every failure
outcome records an error, and a fault thrown by the send phase is caught
and converted into a `success = false` outcome carrying that error
message. -/
theorem c5_fault_containment (env : InteractEnv) (link : BotLink) :
    ((interactWithBot env link).success = false →
      (interactWithBot env link).error.isSome = true) ∧
    (∀ e, env.resolveOk = true → env.sendStart = Except.error e →
      (interactWithBot env link).success = false ∧
      (interactWithBot env link).error = some e) := by
  obtain ⟨ro, ss, rsp, jf, cf, me⟩ := env
  cases ro with
  | false =>
      constructor
      · intro _
        rfl
      · intro e hro
        cases hro
  | true =>
      cases ss with
      | error e0 =>
          constructor
          · intro _
            rfl
          · intro e _ hss
            simp only [Except.error.injEq] at hss
            subst hss
            exact ⟨rfl, rfl⟩
      | ok u =>
          cases u
          constructor
          · cases rsp with
            | none =>
                simp only [interactWithBot, interactWithBotFull]
                rw [if_neg (by simp)]
                split <;> simp
            | some resp =>
                obtain ⟨rmk, rtext⟩ := resp
                cases rmk with
                | none => simp [interactWithBot, interactWithBotFull]
                | some mkp =>
                    simp only [interactWithBot, interactWithBotFull]
                    rw [if_neg (by simp)]
                    split <;> simp
          · intro e _ hss
            cases hss

/-- Witness for C5: the send phase throws; the outcome is a recorded
failure, not an exception. -/
theorem c5_witness :
    (interactWithBot wEnvThrow ⟨"SomeBot", "s1", ""⟩).success = false ∧
    (interactWithBot wEnvThrow ⟨"SomeBot", "s1", ""⟩).error = some "Network failure" :=
  (c5_fault_containment wEnvThrow ⟨"SomeBot", "s1", ""⟩).2 "Network failure" rfl rfl

/-- C7: with no first response within the 30-second deadline, the outcome
is the response-timeout failure when the pre-attached listener collected
no media, and a direct success — skipping the Gating and Confirming phases
entirely — when it did. -/
theorem c7_initial_response (env : InteractEnv) (link : BotLink)
    (hres : env.resolveOk = true)
    (hsend : env.sendStart = Except.ok ())
    (hresp : env.response = none) :
    interactionTimeoutMs = 30000 ∧
    ((collectRun env.mediaEvents).mediaCount = 0 →
      interactWithBotFull env link =
        ({ botUsername := link.botUsername, responseText := "", success := false,
           error := some "Bot response timeout - no message received",
           floodWait := none }, ⟨0, 0⟩)) ∧
    (0 < (collectRun env.mediaEvents).mediaCount →
      (interactWithBotFull env link).1.success = true ∧
      (interactWithBotFull env link).1.error = none ∧
      (interactWithBotFull env link).2.joinAttempts = 0 ∧
      (interactWithBotFull env link).2.confirmClicks = 0) := by
  obtain ⟨ro, ss, rsp, jf, cf, me⟩ := env
  simp only at hres hsend hresp ⊢
  subst hres
  subst hsend
  subst hresp
  refine ⟨rfl, ?_, ?_⟩
  · intro hzero
    show (if !true then _ else _) = _
    rw [if_neg (by simp)]
    show (let mediaResult := collectRun me; if 0 < mediaResult.mediaCount
      then _ else _) = _
    simp only []
    rw [if_neg (by omega)]
  · intro hpos
    have hred : interactWithBotFull ⟨true, Except.ok (), none, jf, cf, me⟩ link =
        ({ botUsername := link.botUsername,
           responseText := "Media forwarded (" ++
             toString (collectRun me).mediaCount ++ " file(s))",
           success := true, error := none, floodWait := none }, ⟨0, 0⟩) := by
      show (if !true then _ else _) = _
      rw [if_neg (by simp)]
      show (let mediaResult := collectRun me; if 0 < mediaResult.mediaCount
        then _ else _) = _
      simp only []
      rw [if_pos hpos]
    rw [hred]
    exact ⟨rfl, rfl, rfl, rfl⟩

/-- Witness for C7: a media item arrives with no explicit response; the
outcome is a direct success with no join or confirm activity. -/
theorem c7_witness :
    (interactWithBotFull wEnvDirect ⟨"SomeBot", "s1", ""⟩).1.success = true ∧
    (interactWithBotFull wEnvDirect ⟨"SomeBot", "s1", ""⟩).2.joinAttempts = 0 ∧
    (interactWithBotFull wEnvDirect ⟨"SomeBot", "s1", ""⟩).2.confirmClicks = 0 := by
  obtain ⟨_, _, h3⟩ := c7_initial_response wEnvDirect ⟨"SomeBot", "s1", ""⟩ rfl rfl rfl
  obtain ⟨ha, _, hc, hd⟩ := h3 (by decide)
  exact ⟨ha, hc, hd⟩

/-- C8: within one target invocation the loop-back recovery runs at most
once — a first re-sent keyboard triggers exactly one recovery pass, any
later one is ignored; when keyboard messages carry no media, collection
still finalizes with every from-responder media item counted and the total
message count intact. -/
theorem c8_single_retry (events : List MediaMsg) :
    (collectRun events).retryPasses ≤ 1 ∧
    ((∃ m ∈ events, m.fromBot = true ∧ m.hasMarkup = true) →
      (collectRun events).retryPasses = 1) ∧
    ((∀ m ∈ events, m.hasMarkup = true → m.hasMedia = false) →
      (collectRun events).mediaCount =
        (events.filter (fun m => m.fromBot && m.hasMedia)).length) ∧
    (collectRun events).totalMessages = events.length := by
  obtain ⟨h0, h1, _, h3⟩ := collect_foldl_retry events ⟨false, 0, 0, 0⟩
    (fun _ => rfl) (fun h => nomatch h)
  refine ⟨?_, fun hex => h1 (h3 hex), ?_, ?_⟩
  · show (events.foldl collectStep ⟨false, 0, 0, 0⟩).retryPasses ≤ 1
    cases hra : (events.foldl collectStep ⟨false, 0, 0, 0⟩).retryAttempted
    · rw [h0 hra]
      decide
    · rw [h1 hra]
  · intro hnm
    show (events.foldl collectStep ⟨false, 0, 0, 0⟩).mediaCount = _
    rw [collect_foldl_media events ⟨false, 0, 0, 0⟩ hnm]
    simp
  · show (events.foldl collectStep ⟨false, 0, 0, 0⟩).totalMessages = _
    rw [collect_foldl_total events ⟨false, 0, 0, 0⟩]
    simp

/-- Witness for C8: example scenario 4 — the keyboard is re-sent twice
around a media item; only the first re-send triggers a recovery pass, and
the one media item is still collected. -/
theorem c8_witness :
    (collectRun [⟨true, true, false⟩, ⟨true, false, true⟩, ⟨true, true, false⟩]).retryPasses
      = 1 ∧
    (collectRun [⟨true, true, false⟩, ⟨true, false, true⟩, ⟨true, true, false⟩]).mediaCount
      = 1 := by
  obtain ⟨_, h1, h2, _⟩ :=
    c8_single_retry [⟨true, true, false⟩, ⟨true, false, true⟩, ⟨true, true, false⟩]
  refine ⟨h1 ⟨⟨true, true, false⟩, by simp, rfl, rfl⟩, ?_⟩
  rw [h2 (by decide)]
  decide

/-- C6: the live extraction path is not de-duplicated — on a message whose
text contains the same bot link twice, `handleMessage` presents a
two-entry list whose entries share the dedup key, while the (uncalled)
`deduplicateLinks` helper would have collapsed them. -/
theorem c6_handleMessage_presents_duplicates :
    handleMessageLinks
      (some "https://t.me/AlphaBot?start=tok1 https://t.me/AlphaBot?start=tok1")
      none none none =
      [⟨"AlphaBot", "tok1", "https://t.me/AlphaBot?start=tok1"⟩,
       ⟨"AlphaBot", "tok1", "https://t.me/AlphaBot?start=tok1"⟩] ∧
    dedupKey ⟨"AlphaBot", "tok1", "https://t.me/AlphaBot?start=tok1"⟩ =
      dedupKey ⟨"AlphaBot", "tok1", "https://t.me/AlphaBot?start=tok1"⟩ ∧
    deduplicateLinks (handleMessageLinks
      (some "https://t.me/AlphaBot?start=tok1 https://t.me/AlphaBot?start=tok1")
      none none none) =
      [⟨"AlphaBot", "tok1", "https://t.me/AlphaBot?start=tok1"⟩] := by
  refine ⟨?_, rfl, ?_⟩
  · decide
  · decide

end TgJoiner
